import Mathlib

set_option maxHeartbeats 1000000

/-! Shallow embedding of the polybar-now-playing player-selection and
display-state engine (src/main.rs and src/config.rs).

Rust strings are modelled as lists of characters; `usize` values as `Nat`;
fallible or panicking code paths return `Option` (with `none` for a panic
or a propagated error).  The two external unicode collaborators used by
the source (the `unicode_width` crate's CJK width function and the
standard library's `char::is_whitespace`) are parameters, collected in
`UnicodeModel`; a concrete instance `uStd` that agrees with them on every
character appearing in concrete evaluations is provided. -/

/-- Rust strings, modelled as lists of characters. -/
abbrev Str := List Char

/-- Rust `String::len`: the number of UTF-8 bytes of the string. -/
def utf8Len (s : Str) : Nat := (s.map Char.utf8Size).sum

/-- Model of the external unicode collaborators: `width` is
`unicode_width::UnicodeWidthChar::width_cjk` with `None` collapsed to `0`
(exactly how both call sites in the source consume it), and `isWs` is
`char::is_whitespace`.  The space character has width 1 in `unicode_width`,
recorded as a structure field. -/
structure UnicodeModel where
  width : Char → Nat
  isWs : Char → Bool
  width_space : width ' ' = 1

/-- Translation of `visual_len` (main.rs:33): the East-Asian-aware display
width of a string, the sum of the per-character widths. -/
def vlen (u : UnicodeModel) (s : Str) : Nat := (s.map u.width).sum

/-- Width function of the concrete unicode model: 0 for control characters,
2 for the CJK Unified Ideographs block, 1 otherwise.  It agrees with
`unicode_width` CJK width on every character used in concrete evaluations
below (ASCII, U+05D0, U+4E00..U+9FFF). -/
def wStd (c : Char) : Nat :=
  if c.toNat < 0x20 ∨ c.toNat = 0x7f then 0
  else if 0x4e00 ≤ c.toNat ∧ c.toNat ≤ 0x9fff then 2
  else 1

/-- Concrete unicode model used by concrete evaluations; the whitespace
predicate agrees with `char::is_whitespace` on the ASCII range. -/
def uStd : UnicodeModel where
  width := wStd
  isWs := fun c => c = ' ' || c = '\t' || c = '\n' || c = '\r'
  width_space := by decide

/-- Translation of `get_name` (main.rs:24): split the bus name on `.`,
drop the first three segments, rejoin with `.`. -/
def getName (s : Str) : Str :=
  List.intercalate (['.']) ((s.splitOn '.').drop 3)

/-- Translation of `make_visual_len`'s character loop (main.rs:41-49):
walk the characters keeping an accumulated width, take a character only
while the accumulated width plus its width stays strictly below the
desired length, and stop at the first character failing that test.
Returns the taken prefix together with the final accumulated width. -/
def mvlLoop (u : UnicodeModel) (L : Nat) : Str → Nat → Str × Nat
  | [], v => ([], v)
  | c :: rest, v =>
    if v + u.width c < L then
      let r := mvlLoop u L rest (v + u.width c)
      (c :: r.1, r.2)
    else ([], v)

/-- Translation of `make_visual_len` (main.rs:37-56): truncate via the
character loop, then right-pad with spaces when the accumulated width is
below the desired length. -/
def makeVisualLen (u : UnicodeModel) (text : Str) (L : Nat) : Str :=
  let r := mvlLoop u L text 0
  if r.2 < L then r.1 ++ List.replicate (L - r.2) ' ' else r.1

/-- Model of the `zbus::zvariant::Value` variants handled by
`value_to_string` (main.rs:58-73).  `f64` carries its decimal rendering
(floating-point formatting is outside the embedding); `other` stands for
every variant the source leaves to `unimplemented!`. -/
inductive MValue where
  | u8 (x : Nat)
  | u16 (x : Nat)
  | u32 (x : Nat)
  | u64 (x : Nat)
  | i16 (x : Int)
  | i32 (x : Int)
  | i64 (x : Int)
  | bool (x : Bool)
  | f64 (rendered : Str)
  | str (s : Str)
  | arr (xs : List MValue)
  | other

/-- Translation of `value_to_string` (main.rs:58-73) with panics as
`none`: the array arm indexes element 0 without a guard, so an empty
array panics, and the catch-all arm is `unimplemented!`. -/
def valueToString : MValue → Option Str
  | .arr [] => none
  | .arr (v :: _) => valueToString v
  | .u8 x => some (toString x).data
  | .u16 x => some (toString x).data
  | .u32 x => some (toString x).data
  | .u64 x => some (toString x).data
  | .i16 x => some (toString x).data
  | .i32 x => some (toString x).data
  | .i64 x => some (toString x).data
  | .bool x => some (toString x).data
  | .f64 r => some r
  | .str s => some s
  | .other => none

/-- The metadata record fetched from the player: field name to value.
Models the `HashMap<String, Value>` with unique keys. -/
abbrev Metadata := List (Str × MValue)

/-- Model of `HashMap::get` on the metadata record. -/
def mdGet (md : Metadata) (f : Str) : Option MValue :=
  match md with
  | [] => none
  | (k, v) :: rest => if k = f then some v else mdGet rest f

/-- Rust `str::trim`: drop whitespace from both ends. -/
def rustTrim (u : UnicodeModel) (s : Str) : Str :=
  ((s.dropWhile u.isWs).reverse.dropWhile u.isWs).reverse

/-- Rust `str::contains`: `rustContains hay needle` holds when `needle`
occurs contiguously inside `hay`. -/
def rustContains (hay needle : Str) : Bool :=
  match hay with
  | [] => needle.isPrefixOf ([] : Str)
  | c :: t => needle.isPrefixOf (c :: t) || rustContains t needle

/-- Configuration record `config.rs:38-43`. -/
structure ControlChars where
  play : Char
  pause : Char
  previous : Char
  next : Char
deriving DecidableEq

/-- Configuration record `config.rs:46-49`; the `HashMap<String, char>`
is modelled as an association list whose order stands for the (unspecified)
iteration order of the map. -/
structure DisplayPlayerPrefixes where
  default : Char
  specific : List (Str × Char)
deriving DecidableEq

/-- Configuration record `config.rs:10-35` (`update_delay`, a float only
used for the timer period, is outside the embedding). -/
structure Config where
  message_display_len : Nat
  font_index : Nat
  control_chars : ControlChars
  display_player_prefixes : DisplayPlayerPrefixes
  metadata_fields : List Str
  metadata_seperator : Str
  hide_output : Bool
deriving DecidableEq

/-- The long-lived `State` record (main.rs:88-100), without the two dbus
connection handles (external collaborators).  `displayGlyph` models the
source's glyph field holding the per-player icon shown before the text. -/
structure PState where
  config : Config
  current_player : Nat
  player_names : List Str
  message : Str
  display_text : Str
  displayGlyph : Char
  display_suffix : Str
  status_paused : Bool
  last_player_name : Str
deriving DecidableEq

/-- One polybar click-region button (main.rs:143-158):
`%«braces»A:playerctl <opt> <cmd> :«braces»<glyph>%«braces»A«braces»`. -/
def actionButton (playerOption : Str) (cmd : Str) (glyph : Char) : Str :=
  ("%\x7bA:playerctl ".data) ++ playerOption ++ ([' ']) ++ cmd ++
    (" :\x7d".data) ++ [glyph] ++ ("%\x7bA\x7d".data)

/-- The spec-side glyph choice exactly as claim C1 words it: the glyph of
the first table entry whose KEY is a substring of the player name, else
the default. -/
def claimedGlyphChoice (tbl : List (Str × Char)) (dflt : Char)
    (nameOpt : Option Str) : Char :=
  match nameOpt with
  | some n => ((tbl.find? (fun kv => rustContains n kv.1)).map Prod.snd).getD dflt
  | none => dflt

/-- The amended spec-side glyph choice: the glyph of the first table entry
whose key CONTAINS the player name as a substring, else the default. -/
def amendedGlyphChoice (tbl : List (Str × Char)) (dflt : Char)
    (nameOpt : Option Str) : Char :=
  match nameOpt with
  | some n => ((tbl.find? (fun kv => rustContains kv.1 n)).map Prod.snd).getD dflt
  | none => dflt

/-- Translation of `update_prefix_suffix` (main.rs:132-186): build the
four click buttons from the optional `-p <name>` option, assemble the
suffix, set the paused flag from the `"Playing"` test, and choose the
glyph by scanning the configured table with `key.contains(player_name)`. -/
def updatePrefixSuffix (nameOpt : Option Str) (statusOpt : Option Str)
    (st : PState) : PState :=
  let playerOption :=
    match nameOpt with
    | some n => ("-p ".data) ++ n
    | none => ([] : Str)
  let prevB := actionButton playerOption ("previous".data) st.config.control_chars.previous
  let playB := actionButton playerOption ("play".data) st.config.control_chars.play
  let pauseB := actionButton playerOption ("pause".data) st.config.control_chars.pause
  let nextB := actionButton playerOption ("next".data) st.config.control_chars.next
  let sp :=
    if statusOpt = some ("Playing".data) then
      (([' '] ++ prevB) ++ ([' '] ++ pauseB), false)
    else
      (([' '] ++ prevB) ++ ([' '] ++ playB), true)
  let glyph :=
    match nameOpt with
    | some n =>
      ((st.config.display_player_prefixes.specific.find?
          (fun kv => rustContains kv.1 n)).map Prod.snd).getD
        st.config.display_player_prefixes.default
    | none => st.config.display_player_prefixes.default
  { st with
    display_suffix := sp.1 ++ ([' '] ++ nextB)
    status_paused := sp.2
    displayGlyph := glyph }

/-- Rust `char::to_ascii_lowercase`, applied character-wise. -/
def asciiLower (c : Char) : Char :=
  if 'A' ≤ c ∧ c ≤ 'Z' then Char.ofNat (c.toNat + 32) else c

/-- The bus-name filter of `update_players` (main.rs:194-198): keep names
that, lowercased, start with the media-player namespace. -/
def mprisFilter (names : List Str) : List Str :=
  names.filter (fun n => ("org.mpris.mediaplayer2.".data).isPrefixOf (n.map asciiLower))

/-- The retarget loop of `update_players` (main.rs:202-206): scan the
enumerated names, overwriting the index on every entry whose derived name
equals the remembered one (so the LAST match wins). -/
def reconcileLoop (last : Str) : List Str → Nat → Nat → Nat
  | [], _, idx => idx
  | p :: rest, i, idx =>
    reconcileLoop last rest (i + 1) (if getName p = last then i else idx)

/-- Translation of `update_players` (main.rs:188-210) with the fetched
raw bus-name list as input: filter it, store it, and when the name at the
current index is not the remembered one, run the retarget loop. -/
def updatePlayers (fetched : List Str) (st : PState) : PState :=
  let names := mprisFilter fetched
  let st1 := { st with player_names := names }
  if (names.get? st1.current_player).map getName = some st1.last_player_name then st1
  else { st1 with current_player := reconcileLoop st1.last_player_name names 0 st1.current_player }

/-- Translation of `next_player` (main.rs:213-226): refresh the players,
no-op when the list is empty, otherwise advance the index cyclically and
remember the new current name; the defensive index lookup failure is the
`none` case. -/
def nextPlayer (fetched : List Str) (st : PState) : Option PState :=
  let st1 := updatePlayers fetched st
  if st1.player_names.isEmpty then some st1
  else
    let newIdx := (st1.current_player + 1) % st1.player_names.length
    match st1.player_names.get? newIdx with
    | some p => some { st1 with current_player := newIdx, last_player_name := getName p }
    | none => none

/-- `k` successive `next_player` events, each with the same fetched
bus-name list. -/
def nextPlayerN (fetched : List Str) : Nat → PState → Option PState
  | 0, st => some st
  | k + 1, st => (nextPlayer fetched st).bind (nextPlayerN fetched k)

/-- The metadata loop of `update_message` (main.rs:246-256): for each
configured field present in the record, project its value to a string
(propagating the projection's panic), trim it, and keep it when
non-empty. -/
def metadataStrings (u : UnicodeModel) (fields : List Str) (md : Metadata) :
    Option (List Str) :=
  match fields with
  | [] => some []
  | f :: rest =>
    match mdGet md f with
    | none => metadataStrings u rest md
    | some v =>
      match valueToString v with
      | none => none
      | some s =>
        match metadataStrings u rest md with
        | none => none
        | some l =>
          some (if rustTrim u s = [] then l else rustTrim u s :: l)

/-- The join step of `update_message` (main.rs:258-259): the retained
values joined with the configured separator wrapped in single spaces. -/
def formatMessage (u : UnicodeModel) (cfg : Config) (md : Metadata) : Option Str :=
  (metadataStrings u cfg.metadata_fields md).map
    (List.intercalate (([' '] ++ cfg.metadata_seperator) ++ [' ']))

/-- The spec-side characterization of the retained values: the trimmed
projections of the configured fields that are present, project
successfully, and are non-empty after trimming, in configured order. -/
def selectedValues (u : UnicodeModel) (fields : List Str) (md : Metadata) :
    List Str :=
  fields.filterMap (fun f =>
    (mdGet md f).bind (fun v =>
      (valueToString v).bind (fun s =>
        if rustTrim u s = [] then none else some (rustTrim u s))))

/-- The commit step of `update_message` (main.rs:270-273): store the new
message and reset the displayed text only when the message changed. -/
def commitMessage (newMessage : Str) (st : PState) : PState :=
  if newMessage ≠ st.message then
    { st with message := newMessage, display_text := newMessage }
  else st

/-- Translation of `update_message` (main.rs:228-276).  `status` and `md`
are the values fetched from the current player (the external metadata
source); `none` models the propagated invalid-index error and the
projection panic. -/
def updateMessage (u : UnicodeModel) (status : Str) (md : Metadata)
    (st : PState) : Option PState :=
  if st.player_names.isEmpty then
    some (commitMessage ("No player available".data) (updatePrefixSuffix none none st))
  else
    match (st.player_names.get? st.current_player).map getName with
    | none => none
    | some name =>
      match formatMessage u st.config md with
      | none => none
      | some m0 =>
        some (commitMessage
          (if st.config.message_display_len < vlen u m0 then
            ([' '] ++ m0) ++ ([' ', ' '] : Str)
          else m0)
          { updatePrefixSuffix (some name) (some status) st with
              last_player_name := name })

/-- Translation of `scroll` (main.rs:278-296): when not paused, compare
the display width of the displayed text with the target; rotate one
character left when wider, pad with `target - byte_length` spaces when
narrower (the `usize` subtraction underflows, hence `none`, when the byte
length exceeds the target), do nothing when equal. -/
def scroll (u : UnicodeModel) (st : PState) : Option PState :=
  if st.status_paused then some st
  else if st.config.message_display_len < vlen u st.display_text then
    match st.display_text with
    | [] => some { st with display_text := ([] : Str) }
    | c :: rest => some { st with display_text := rest ++ [c] }
  else if vlen u st.display_text < st.config.message_display_len then
    if st.config.message_display_len < utf8Len st.display_text then none
    else
      some { st with display_text :=
        st.display_text ++ List.replicate (st.config.message_display_len - utf8Len st.display_text) ' ' }
  else some st

/-- A configuration with the default-config glyphs replaced by plain
ASCII markers; base for the concrete instances. -/
def cfgBase : Config where
  message_display_len := 10
  font_index := 1
  control_chars := { play := 'P', pause := 'U', previous := 'B', next := 'N' }
  display_player_prefixes := { default := 'D', specific := [] }
  metadata_fields := []
  metadata_seperator := ("-".data)
  hide_output := false

/-- The initial state built by `State::new` (main.rs:109-121), before the
first refresh. -/
def stBase : PState where
  config := cfgBase
  current_player := 0
  player_names := []
  message := []
  display_text := []
  displayGlyph := ' '
  display_suffix := []
  status_paused := false
  last_player_name := []

/-- Configuration for the C1 instance: one table entry keyed `"ab"`. -/
def cfgC1x : Config :=
  { cfgBase with display_player_prefixes := { default := 'd', specific := [(("ab".data), 'x')] } }

/-- State for the C1 instance. -/
def stC1x : PState := { stBase with config := cfgC1x }

/-- State for the C2 instance: target width 3, displayed text a single
CJK character (display width 2, UTF-8 byte length 3), not paused. -/
def stC2x : PState :=
  { stBase with config := { cfgBase with message_display_len := 3 },
                display_text := ("你".data), status_paused := false }

/-- State for the C2 witness: ASCII text, target width 5. -/
def stW2 : PState :=
  { stBase with config := { cfgBase with message_display_len := 5 },
                display_text := ("hi".data) }

/-- Configuration for the C3 instance: target width 3, one field. -/
def cfgC3x : Config :=
  { cfgBase with message_display_len := 3, metadata_fields := [("t".data)] }

/-- State for the C3 instance: one player present. -/
def stC3x : PState :=
  { stBase with config := cfgC3x,
                player_names := [("org.mpris.MediaPlayer2.p".data)],
                status_paused := true }

/-- Metadata for the C3 instance: two Hebrew letters, each of display
width 1 but UTF-8 byte length 2. -/
def mdC3x : Metadata := [(("t".data), .str ("אא".data))]

/-- Configuration for the C5 instance: two fields, separator `"-"`. -/
def cfgC5x : Config :=
  { cfgBase with metadata_fields := [("f1".data), ("f2".data)],
                 metadata_seperator := ("-".data) }

/-- Metadata for the C5 instance. -/
def mdC5x : Metadata := [(("f1".data), .str ("a".data)), (("f2".data), .str ("b".data))]

/-- Fetched bus names for the C6 witness. -/
def fetchedC6x : List Str :=
  [("org.mpris.MediaPlayer2.a".data), ("org.mpris.MediaPlayer2.b".data)]

/-- State for the C6 witness: an out-of-range prior index and a
remembered name matching the second entry. -/
def stC6x : PState := { stBase with current_player := 7, last_player_name := ("b".data) }

/-- Fetched bus names for the C7 instances. -/
def fetchedC7x : List Str :=
  [("org.mpris.MediaPlayer2.a".data), ("org.mpris.MediaPlayer2.b".data)]

/-- State for the C7 counterexample: valid starting index 0, while the
remembered name matches entry 1. -/
def stC7x : PState :=
  { stBase with player_names := mprisFilter fetchedC7x, last_player_name := ("b".data) }

/-- State for the C7 witness: index 0 with the matching remembered name. -/
def stC7w : PState :=
  { stBase with player_names := mprisFilter fetchedC7x, last_player_name := ("a".data) }

/-- Configuration for the C10 instance. -/
def cfgC10x : Config := { cfgBase with metadata_fields := [("x".data)] }

/-- State for the C10 instance: one player present. -/
def stC10x : PState :=
  { stBase with config := cfgC10x, player_names := [("org.mpris.MediaPlayer2.p".data)] }

/-- The commit step always leaves the stored message equal to the freshly
computed one (either it writes it, or it was already stored). -/
theorem commitMessage_message (m : Str) (st : PState) :
    (commitMessage m st).message = m := by
  unfold commitMessage
  split
  · rfl
  · next h => exact (not_not.mp h).symm

/-- The commit step never touches the paused flag. -/
theorem commitMessage_paused (m : Str) (st : PState) :
    (commitMessage m st).status_paused = st.status_paused := by
  unfold commitMessage
  split <;> rfl

/-- The commit step never touches the glyph. -/
theorem commitMessage_glyph (m : Str) (st : PState) :
    (commitMessage m st).displayGlyph = st.displayGlyph := by
  unfold commitMessage
  split <;> rfl

/-- The commit step never touches the suffix. -/
theorem commitMessage_suffix (m : Str) (st : PState) :
    (commitMessage m st).display_suffix = st.display_suffix := by
  unfold commitMessage
  split <;> rfl

/-- Claim C1 (counterexample): with the table `[("ab", 'x')]`, default
`'d'` and player name `"abc"`, the key `"ab"` IS a substring of the name,
so the claim demands `'x'`; the code compares in the other direction
(`key.contains(name)`) and yields the default `'d'`. -/
theorem glyph_direction_counterexample :
    (updatePrefixSuffix (some ("abc".data)) none stC1x).displayGlyph = 'd' ∧
    claimedGlyphChoice stC1x.config.display_player_prefixes.specific
      stC1x.config.display_player_prefixes.default (some ("abc".data)) = 'x' ∧
    ('d' : Char) ≠ 'x' :=
  ⟨by decide, by decide, by decide⟩

/-- Claim C1 (amended): the glyph chosen when building controls is the
glyph of the first entry of the configured table whose KEY CONTAINS the
given player name as a substring; otherwise, and when no player name is
given at all, the configured default glyph. -/
theorem glyph_choice_matches_key_containing_name (nameOpt statusOpt : Option Str)
    (st : PState) :
    (updatePrefixSuffix nameOpt statusOpt st).displayGlyph =
      amendedGlyphChoice st.config.display_player_prefixes.specific
        st.config.display_player_prefixes.default nameOpt := by
  cases nameOpt <;> rfl

/-- Claim C2 (counterexample): in a reachable not-paused state whose
display text is one CJK character (width 2, byte length 3) with target
width 3, the claim demands one pad space; the code pads with
`3 - len = 0` spaces and leaves the text unchanged. -/
theorem scroll_pad_width_counterexample :
    stC2x.status_paused = false ∧
    vlen uStd stC2x.display_text < stC2x.config.message_display_len ∧
    stC2x.config.message_display_len - vlen uStd stC2x.display_text = 1 ∧
    (scroll uStd stC2x).map (fun s => s.display_text) = some ("你".data) ∧
    ("你".data : Str) ≠ ("你".data) ++ List.replicate 1 ' ' :=
  ⟨rfl, by decide, by decide, by decide, by decide⟩

/-- Claim C2 (amended): when the scroll step runs not paused and the
display width of the text is strictly below the target, it right-pads
with exactly `target - byte-length` spaces, provided the byte length does
not exceed the target (otherwise the unsigned subtraction underflows and
the step fails, see C3). -/
theorem scroll_pad_byte_length (u : UnicodeModel) (st : PState)
    (hp : st.status_paused = false)
    (hlt : vlen u st.display_text < st.config.message_display_len)
    (hle : utf8Len st.display_text ≤ st.config.message_display_len) :
    scroll u st = some { st with display_text := st.display_text ++ List.replicate (st.config.message_display_len - utf8Len st.display_text) ' ' } := by
  have h1 : ¬ (st.config.message_display_len < vlen u st.display_text) :=
    Nat.lt_asymm hlt
  have h2 : ¬ (st.config.message_display_len < utf8Len st.display_text) :=
    Nat.not_lt.mpr hle
  simp [scroll, hp, h1, h2, hlt]

/-- Witness for `scroll_pad_byte_length` at the concrete state `stW2`. -/
theorem scroll_pad_byte_length_witness :
    stW2.status_paused = false ∧
    vlen uStd stW2.display_text < stW2.config.message_display_len ∧
    utf8Len stW2.display_text ≤ stW2.config.message_display_len ∧
    scroll uStd stW2 = some { stW2 with display_text := stW2.display_text ++ List.replicate (stW2.config.message_display_len - utf8Len stW2.display_text) ' ' } :=
  ⟨rfl, by decide, by decide, scroll_pad_byte_length uStd stW2 rfl (by decide) (by decide)⟩

/-- Claim C3: from the concrete reachable state produced by a message
refresh with Hebrew metadata (each letter: width 1, two UTF-8 bytes) the
not-paused scroll step reaches the padding branch with
`display width < target < byte length`, so the `usize` subtraction
`message_display_len - display_text.len()` underflows and the step
fails. -/
theorem scroll_pad_underflow_reachable :
    (updateMessage uStd ("Playing".data) mdC3x stC3x).map (fun s =>
      (s.status_paused,
       decide (vlen uStd s.display_text < s.config.message_display_len),
       decide (s.config.message_display_len < utf8Len s.display_text))) =
      some (false, true, true) ∧
    (updateMessage uStd ("Playing".data) mdC3x stC3x).bind (scroll uStd) = none :=
  ⟨by decide, by decide⟩

/-- Claim C10: the metadata value projection is partial exactly as the
code is written: every handled scalar kind projects to `some` string, the
array arm recurses into element 0 and panics (`none`) on an empty array,
the catch-all arm is unimplemented, and the empty-array panic is
reachable from the message-refresh path. -/
theorem value_to_string_partial_array_unguarded :
    valueToString (.arr []) = none ∧
    (∀ (v : MValue) (rest : List MValue),
      valueToString (.arr (v :: rest)) = valueToString v) ∧
    (∀ x : Nat, (valueToString (.u8 x)).isSome = true) ∧
    (∀ x : Nat, (valueToString (.u16 x)).isSome = true) ∧
    (∀ x : Nat, (valueToString (.u32 x)).isSome = true) ∧
    (∀ x : Nat, (valueToString (.u64 x)).isSome = true) ∧
    (∀ x : Int, (valueToString (.i16 x)).isSome = true) ∧
    (∀ x : Int, (valueToString (.i32 x)).isSome = true) ∧
    (∀ x : Int, (valueToString (.i64 x)).isSome = true) ∧
    (∀ x : Bool, (valueToString (.bool x)).isSome = true) ∧
    (∀ r : Str, (valueToString (.f64 r)).isSome = true) ∧
    (∀ s : Str, (valueToString (.str s)).isSome = true) ∧
    valueToString .other = none ∧
    updateMessage uStd ("Playing".data) [(("x".data), .arr [])] stC10x = none :=
  ⟨rfl, fun _ _ => rfl, fun _ => rfl, fun _ => rfl, fun _ => rfl, fun _ => rfl,
   fun _ => rfl, fun _ => rfl, fun _ => rfl, fun _ => rfl, fun _ => rfl, fun _ => rfl,
   rfl, by decide⟩

/-- When the metadata loop completes without a projection panic, the list
it builds is exactly the spec-side selection: trimmed projections of the
present fields that are non-empty after trimming, in configured order. -/
theorem metadataStrings_eq_selected (u : UnicodeModel) (md : Metadata) :
    ∀ (fields : List Str) (l : List Str),
      metadataStrings u fields md = some l → l = selectedValues u fields md := by
  intro fields
  induction fields with
  | nil =>
    intro l h
    simp only [metadataStrings, Option.some.injEq] at h
    simp [selectedValues, ← h]
  | cons f rest ih =>
    intro l h
    simp only [metadataStrings] at h
    cases hg : mdGet md f with
    | none =>
      simp only [hg] at h
      simp only [selectedValues, List.filterMap_cons, hg, Option.none_bind]
      exact ih l h
    | some v =>
      simp only [hg] at h
      cases hv : valueToString v with
      | none => simp only [hv] at h; exact Option.noConfusion h
      | some s =>
        simp only [hv] at h
        cases hr : metadataStrings u rest md with
        | none => simp only [hr] at h; exact Option.noConfusion h
        | some l' =>
          simp only [hr, Option.some.injEq] at h
          subst h
          have hrec : l' = List.filterMap (fun f =>
              (mdGet md f).bind fun v =>
                (valueToString v).bind fun s =>
                  if rustTrim u s = [] then none else some (rustTrim u s)) rest :=
            ih l' hr
          by_cases ht : rustTrim u s = []
          · simp [selectedValues, List.filterMap_cons, hg, hv, ht, ← hrec]
          · simp [selectedValues, List.filterMap_cons, hg, hv, ht, ← hrec]

/-- Claim C5 (counterexample): with fields `f1`, `f2` holding `"a"` and
`"b"` and configured separator `"-"`, the retained values are `"a"`,
`"b"`; joining with exactly the separator (as the claim states) gives
`"a-b"`, but the code joins with the separator wrapped in spaces and the
formatted message is `"a - b"`. -/
theorem format_separator_counterexample :
    metadataStrings uStd cfgC5x.metadata_fields mdC5x = some [("a".data), ("b".data)] ∧
    List.intercalate cfgC5x.metadata_seperator [("a".data), ("b".data)] = ("a-b".data) ∧
    formatMessage uStd cfgC5x mdC5x = some ("a - b".data) ∧
    ("a - b".data : Str) ≠ ("a-b".data) :=
  ⟨by decide, by decide, by decide, by decide⟩

/-- Claim C5 (amended): the formatted message (before any scroll-wrap
padding) is the trimmed values of the configured fields that are present
and non-empty after trimming, in configured field order, joined with the
configured separator surrounded by a single space on each side. -/
theorem format_message_padded_separator (u : UnicodeModel) (cfg : Config)
    (md : Metadata) (l : List Str)
    (h : metadataStrings u cfg.metadata_fields md = some l) :
    l = selectedValues u cfg.metadata_fields md ∧
    formatMessage u cfg md =
      some (List.intercalate (([' '] ++ cfg.metadata_seperator) ++ [' ']) l) := by
  refine ⟨metadataStrings_eq_selected u md cfg.metadata_fields l h, ?_⟩
  simp [formatMessage, h]

/-- Witness for `format_message_padded_separator` at the C5 instance. -/
theorem format_message_padded_separator_witness :
    metadataStrings uStd cfgC5x.metadata_fields mdC5x = some [("a".data), ("b".data)] ∧
    ([("a".data), ("b".data)] = selectedValues uStd cfgC5x.metadata_fields mdC5x ∧
     formatMessage uStd cfgC5x mdC5x =
       some (List.intercalate (([' '] ++ cfgC5x.metadata_seperator) ++ [' '])
         [("a".data), ("b".data)])) :=
  ⟨by decide, format_message_padded_separator uStd cfgC5x mdC5x _ (by decide)⟩

/-- Claim C9: when the player list is empty, the message refresh leaves
the sentinel message stored, builds controls from no player and no
status, so the suffix is previous-button, PLAY-button, next-button (the
play branch, not the pause branch), the paused flag is set, and the glyph
is the configured default. -/
theorem no_player_refresh_builds_play_controls (u : UnicodeModel) (status : Str)
    (md : Metadata) (st : PState) (h : st.player_names = []) :
    ∃ st', updateMessage u status md st = some st' ∧
      st'.message = ("No player available".data) ∧
      st'.status_paused = true ∧
      st'.displayGlyph = st.config.display_player_prefixes.default ∧
      st'.display_suffix =
        (([' '] ++ actionButton ([] : Str) ("previous".data) st.config.control_chars.previous) ++
         ([' '] ++ actionButton ([] : Str) ("play".data) st.config.control_chars.play)) ++
        ([' '] ++ actionButton ([] : Str) ("next".data) st.config.control_chars.next) := by
  refine ⟨commitMessage ("No player available".data) (updatePrefixSuffix none none st),
    ?_, ?_, ?_, ?_, ?_⟩
  · rw [updateMessage, if_pos (by rw [h]; rfl)]
  · exact commitMessage_message _ _
  · rw [commitMessage_paused]; rfl
  · rw [commitMessage_glyph]; rfl
  · rw [commitMessage_suffix]; rfl

/-- Witness for `no_player_refresh_builds_play_controls` at the initial
state, whose player list is empty. -/
theorem no_player_refresh_witness :
    stBase.player_names = ([] : List Str) ∧
    (∃ st', updateMessage uStd ([] : Str) ([] : Metadata) stBase = some st' ∧
      st'.message = ("No player available".data) ∧
      st'.status_paused = true ∧
      st'.displayGlyph = stBase.config.display_player_prefixes.default ∧
      st'.display_suffix =
        (([' '] ++ actionButton ([] : Str) ("previous".data) stBase.config.control_chars.previous) ++
         ([' '] ++ actionButton ([] : Str) ("play".data) stBase.config.control_chars.play)) ++
        ([' '] ++ actionButton ([] : Str) ("next".data) stBase.config.control_chars.next)) :=
  ⟨rfl, no_player_refresh_builds_play_controls uStd ([] : Str) ([] : Metadata) stBase rfl⟩

/-- Claim C8: a message refresh leaves the displayed text (and so any
scroll progress) unchanged when the freshly computed message equals the
stored one, and resets it to the message exactly when the message
changed. -/
theorem display_text_reset_iff_message_change (u : UnicodeModel) (status : Str)
    (md : Metadata) (st st' : PState)
    (h : updateMessage u status md st = some st') :
    (st'.message = st.message → st'.display_text = st.display_text) ∧
    (st'.message ≠ st.message → st'.display_text = st'.message) := by
  have key : ∀ (m : Str) (stX : PState),
      stX.message = st.message → stX.display_text = st.display_text →
      commitMessage m stX = st' →
      (st'.message = st.message → st'.display_text = st.display_text) ∧
      (st'.message ≠ st.message → st'.display_text = st'.message) := by
    intro m stX hm hd hc
    unfold commitMessage at hc
    by_cases hne : m ≠ stX.message
    · rw [if_pos hne] at hc
      subst hc
      refine ⟨fun hmsg => ?_, fun _ => rfl⟩
      exact absurd (hmsg.trans hm.symm) hne
    · rw [if_neg hne] at hc
      subst hc
      exact ⟨fun _ => hd, fun hmsg => absurd hm hmsg⟩
  rw [updateMessage] at h
  split at h
  · injection h with h
    refine key _ _ ?_ ?_ h <;> rfl
  · split at h
    · exact Option.noConfusion h
    · split at h
      · exact Option.noConfusion h
      · injection h with h
        refine key _ _ ?_ ?_ h <;> rfl

/-- Witness for `display_text_reset_iff_message_change` at the initial
state (empty player list, so the refresh surely succeeds). -/
theorem display_text_reset_witness :
    updateMessage uStd ([] : Str) ([] : Metadata) stBase =
      some (commitMessage ("No player available".data) (updatePrefixSuffix none none stBase)) ∧
    (((commitMessage ("No player available".data) (updatePrefixSuffix none none stBase)).message = stBase.message →
      (commitMessage ("No player available".data) (updatePrefixSuffix none none stBase)).display_text = stBase.display_text) ∧
     ((commitMessage ("No player available".data) (updatePrefixSuffix none none stBase)).message ≠ stBase.message →
      (commitMessage ("No player available".data) (updatePrefixSuffix none none stBase)).display_text =
        (commitMessage ("No player available".data) (updatePrefixSuffix none none stBase)).message)) :=
  ⟨rfl, display_text_reset_iff_message_change uStd ([] : Str) ([] : Metadata) stBase _ rfl⟩

/-- Display width distributes over append. -/
theorem vlen_append (u : UnicodeModel) (a b : Str) :
    vlen u (a ++ b) = vlen u a + vlen u b := by
  simp [vlen]

/-- A run of `n` pad spaces has display width `n`. -/
theorem vlen_replicate_space (u : UnicodeModel) (n : Nat) :
    vlen u (List.replicate n ' ') = n := by
  induction n with
  | zero => rfl
  | succ n ih =>
    simp only [List.replicate_succ, vlen, List.map_cons, List.sum_cons, u.width_space] at *
    omega

/-- The truncation loop's accumulator is the initial value plus the
display width of the taken prefix. -/
theorem mvlLoop_snd (u : UnicodeModel) (L : Nat) :
    ∀ (text : Str) (v : Nat),
      (mvlLoop u L text v).2 = v + vlen u (mvlLoop u L text v).1 := by
  intro text
  induction text with
  | nil => intro v; simp [mvlLoop, vlen]
  | cons c rest ih =>
    intro v
    by_cases hc : v + u.width c < L
    · simp only [mvlLoop, if_pos hc]
      rw [ih (v + u.width c)]
      simp only [vlen, List.map_cons, List.sum_cons]
      omega
    · simp [mvlLoop, if_neg hc, vlen]

/-- The truncation loop returns a prefix of its input. -/
theorem mvlLoop_pre (u : UnicodeModel) (L : Nat) :
    ∀ (text : Str) (v : Nat), ∃ su, (mvlLoop u L text v).1 ++ su = text := by
  intro text
  induction text with
  | nil => intro v; exact ⟨[], rfl⟩
  | cons c rest ih =>
    intro v
    by_cases hc : v + u.width c < L
    · obtain ⟨su, hsu⟩ := ih (v + u.width c)
      exact ⟨su, by simp only [mvlLoop, if_pos hc]; simpa using hsu⟩
    · exact ⟨c :: rest, by simp [mvlLoop, if_neg hc]⟩

/-- When the loop starts strictly below the target, its accumulator stays
strictly below the target. -/
theorem mvlLoop_lt (u : UnicodeModel) (L : Nat) :
    ∀ (text : Str) (v : Nat), v < L → (mvlLoop u L text v).2 < L := by
  intro text
  induction text with
  | nil => intro v hv; exact hv
  | cons c rest ih =>
    intro v hv
    by_cases hc : v + u.width c < L
    · simp only [mvlLoop, if_pos hc]
      exact ih (v + u.width c) hc
    · simpa [mvlLoop, if_neg hc] using hv

/-- Any prefix of the input whose accumulated width stays strictly below
the target is no longer than the prefix the loop takes (maximality). -/
theorem mvlLoop_max (u : UnicodeModel) (L : Nat) :
    ∀ (text q r : Str) (v : Nat), q ++ r = text →
      v + vlen u q < L → q.length ≤ (mvlLoop u L text v).1.length := by
  intro text
  induction text with
  | nil =>
    intro q r v hqr _
    have hq : q = [] := by
      cases q with
      | nil => rfl
      | cons a b => exact absurd hqr (by simp)
    simp [hq]
  | cons c rest ih =>
    intro q r v hqr hv
    cases q with
    | nil => simp
    | cons c' q' =>
      have hc' : c = c' := by
        have := congrArg (fun l => l.head?) hqr
        simpa using this.symm
      have hq'r : q' ++ r = rest := by
        have := congrArg List.tail hqr
        simpa using this
      subst hc'
      have hwq : v + (u.width c + vlen u q') < L := by
        simpa [vlen] using hv
      have hcond : v + u.width c < L := by omega
      simp only [mvlLoop, if_pos hcond, List.length_cons]
      have := ih q' r (v + u.width c) hq'r (by omega)
      simpa using Nat.succ_le_succ this

/-- Claim C4 (counterexample): for text `"ab"` and target width 2 the
whole text has display width 2, which does not exceed the target, so the
claim demands the rendered text `"ab"`; the code's strict comparison
stops before the second character and renders `"a "`. -/
theorem make_visual_len_longest_counterexample :
    makeVisualLen uStd ("ab".data) 2 = ("a ".data) ∧
    vlen uStd ("ab".data) ≤ 2 ∧
    ("a ".data : Str) ≠ ("ab".data) :=
  ⟨by decide, by decide, by decide⟩

/-- Claim C4 (amended): for a positive target width `W`, the render
operation returns the longest character prefix of the text whose display
width is STRICTLY LESS than `W`, right-padded with spaces so that the
result's display width is exactly `W`. -/
theorem make_visual_len_strict_truncate (u : UnicodeModel) (text : Str) (W : Nat)
    (hW : 0 < W) :
    ∃ p su, p ++ su = text ∧ vlen u p < W ∧
      (∀ q r, q ++ r = text → vlen u q < W → q.length ≤ p.length) ∧
      makeVisualLen u text W = p ++ List.replicate (W - vlen u p) ' ' ∧
      vlen u (makeVisualLen u text W) = W := by
  obtain ⟨su, hsu⟩ := mvlLoop_pre u W text 0
  have h2 := mvlLoop_snd u W text 0
  have hlt := mvlLoop_lt u W text 0 hW
  have hvp : vlen u (mvlLoop u W text 0).1 < W := by omega
  have hmv : makeVisualLen u text W =
      (mvlLoop u W text 0).1 ++ List.replicate (W - vlen u (mvlLoop u W text 0).1) ' ' := by
    unfold makeVisualLen
    rw [if_pos hlt, h2, Nat.zero_add]
  refine ⟨(mvlLoop u W text 0).1, su, hsu, hvp, ?_, hmv, ?_⟩
  · intro q r hqr hq
    exact mvlLoop_max u W text q r 0 hqr (by omega)
  · rw [hmv, vlen_append, vlen_replicate_space]
    omega

/-- Witness for `make_visual_len_strict_truncate` at text `"ab"`, width 2. -/
theorem make_visual_len_strict_truncate_witness :
    0 < 2 ∧
    (∃ p su, p ++ su = ("ab".data) ∧ vlen uStd p < 2 ∧
      (∀ q r, q ++ r = ("ab".data) → vlen uStd q < 2 → q.length ≤ p.length) ∧
      makeVisualLen uStd ("ab".data) 2 = p ++ List.replicate (2 - vlen uStd p) ' ' ∧
      vlen uStd (makeVisualLen uStd ("ab".data) 2) = 2) :=
  ⟨by decide, make_visual_len_strict_truncate uStd ("ab".data) 2 (by decide)⟩

/-- When no enumerated entry derives the remembered name, the retarget
loop leaves the index unchanged. -/
theorem reconcileLoop_no_match (last : Str) :
    ∀ (l : List Str) (i idx : Nat), (∀ p ∈ l, getName p ≠ last) →
      reconcileLoop last l i idx = idx := by
  intro l
  induction l with
  | nil => intro i idx _; rfl
  | cons p rest ih =>
    intro i idx h
    have hp : getName p ≠ last := h p (List.mem_cons_self p rest)
    simp only [reconcileLoop, if_neg hp]
    exact ih (i + 1) idx (fun q hq => h q (List.mem_cons_of_mem p hq))

/-- When some enumerated entry derives the remembered name, the retarget
loop lands on the position of such an entry (offset by the starting
enumeration index). -/
theorem reconcileLoop_mem (last : Str) :
    ∀ (l : List Str) (i idx : Nat), (∃ p ∈ l, getName p = last) →
      ∃ k, ∃ hk : k < l.length, reconcileLoop last l i idx = i + k ∧
        getName (l.get ⟨k, hk⟩) = last := by
  intro l
  induction l with
  | nil => intro i idx h; exact absurd h (by simp)
  | cons p rest ih =>
    intro i idx h
    by_cases hp : getName p = last
    · simp only [reconcileLoop, if_pos hp]
      by_cases hr : ∃ q ∈ rest, getName q = last
      · obtain ⟨k, hk, heq, hget⟩ := ih (i + 1) i hr
        refine ⟨k + 1, by simpa using Nat.succ_lt_succ hk, ?_, ?_⟩
        · rw [heq]; omega
        · simpa using hget
      · push_neg at hr
        rw [reconcileLoop_no_match last rest (i + 1) i hr]
        exact ⟨0, by simp, by omega, by simpa using hp⟩
    · simp only [reconcileLoop, if_neg hp]
      have hr : ∃ q ∈ rest, getName q = last := by
        obtain ⟨q, hq, hql⟩ := h
        rcases List.mem_cons.mp hq with rfl | hq'
        · exact absurd hql hp
        · exact ⟨q, hq', hql⟩
      obtain ⟨k, hk, heq, hget⟩ := ih (i + 1) idx hr
      refine ⟨k + 1, by simpa using Nat.succ_lt_succ hk, ?_, ?_⟩
      · rw [heq]; omega
      · simpa using hget

/-- Claim C6: whenever the remembered name equals the derived name of
some entry of the (filtered) fresh sequence, the refresh leaves the
current index on an entry deriving that name, whatever the prior index
was. -/
theorem reconcile_retargets_to_remembered (fetched : List Str) (st : PState)
    (h : ∃ p ∈ mprisFilter fetched, getName p = st.last_player_name) :
    ∃ hk : (updatePlayers fetched st).current_player < (mprisFilter fetched).length,
      getName ((mprisFilter fetched).get
        ⟨(updatePlayers fetched st).current_player, hk⟩) = st.last_player_name := by
  by_cases hc : ((mprisFilter fetched).get? st.current_player).map getName =
      some st.last_player_name
  · have hcur : (updatePlayers fetched st).current_player = st.current_player := by
      simp only [updatePlayers, if_pos hc]
    obtain ⟨p, hp, hpn⟩ := Option.map_eq_some'.mp hc
    obtain ⟨hlt, hget⟩ := List.get?_eq_some.mp hp
    rw [hcur]
    exact ⟨hlt, by rw [hget]; exact hpn⟩
  · have hcur : (updatePlayers fetched st).current_player =
        reconcileLoop st.last_player_name (mprisFilter fetched) 0 st.current_player := by
      simp only [updatePlayers, if_neg hc]
    obtain ⟨k, hk, heq, hget⟩ :=
      reconcileLoop_mem st.last_player_name (mprisFilter fetched) 0 st.current_player h
    rw [hcur, heq, Nat.zero_add]
    exact ⟨hk, hget⟩

/-- Witness for `reconcile_retargets_to_remembered` with two players, a
remembered name matching the second, and an out-of-range prior index. -/
theorem reconcile_retargets_witness :
    (∃ p ∈ mprisFilter fetchedC6x, getName p = stC6x.last_player_name) ∧
    (∃ hk : (updatePlayers fetchedC6x stC6x).current_player < (mprisFilter fetchedC6x).length,
      getName ((mprisFilter fetchedC6x).get
        ⟨(updatePlayers fetchedC6x stC6x).current_player, hk⟩) = stC6x.last_player_name) :=
  ⟨⟨("org.mpris.MediaPlayer2.b".data), by decide, by decide⟩,
   reconcile_retargets_to_remembered fetchedC6x stC6x
     ⟨("org.mpris.MediaPlayer2.b".data), by decide, by decide⟩⟩

/-- One `next_player` event under the steady-state invariant (remembered
name = derived name at the current, in-range index): the embedded
reconcile is a no-op, the index advances cyclically, the lookup cannot
fail, and the invariant is re-established. -/
theorem nextPlayer_step (fetched : List Str) (st : PState)
    (hidx : st.current_player < (mprisFilter fetched).length)
    (hlast : st.last_player_name =
      getName ((mprisFilter fetched).get ⟨st.current_player, hidx⟩)) :
    ∃ st', nextPlayer fetched st = some st' ∧
      st'.current_player = (st.current_player + 1) % (mprisFilter fetched).length ∧
      ∃ hidx' : st'.current_player < (mprisFilter fetched).length,
        st'.last_player_name =
          getName ((mprisFilter fetched).get ⟨st'.current_player, hidx'⟩) := by
  have hlen : 0 < (mprisFilter fetched).length := Nat.lt_of_le_of_lt (Nat.zero_le _) hidx
  have hcond : ((mprisFilter fetched).get? st.current_player).map getName =
      some st.last_player_name := by
    rw [List.get?_eq_get hidx]
    simp [hlast]
  have hup : updatePlayers fetched st = { st with player_names := mprisFilter fetched } := by
    simp only [updatePlayers, if_pos hcond]
  have hemp : ({ st with player_names := mprisFilter fetched } : PState).player_names.isEmpty = false := by
    simp only []
    cases hm : mprisFilter fetched with
    | nil => rw [hm] at hlen; exact absurd hlen (by simp)
    | cons a l => rfl
  have hidx' : (st.current_player + 1) % (mprisFilter fetched).length <
      (mprisFilter fetched).length := Nat.mod_lt _ hlen
  refine ⟨{ st with player_names := mprisFilter fetched, current_player := (st.current_player + 1) % (mprisFilter fetched).length, last_player_name := getName ((mprisFilter fetched).get ⟨(st.current_player + 1) % (mprisFilter fetched).length, hidx'⟩) }, ?_, rfl, hidx', rfl⟩
  rw [nextPlayer, hup]
  simp only [hemp, Bool.false_eq_true, if_false]
  rw [List.get?_eq_get hidx']

/-- `n` `next_player` events under the invariant advance the index by
`n` modulo the sequence length. -/
theorem nextPlayerN_inv (fetched : List Str) (k : Nat) :
    ∀ (st : PState) (hidx : st.current_player < (mprisFilter fetched).length),
      st.last_player_name =
        getName ((mprisFilter fetched).get ⟨st.current_player, hidx⟩) →
      ∃ st', nextPlayerN fetched k st = some st' ∧
        st'.current_player = (st.current_player + k) % (mprisFilter fetched).length := by
  induction k with
  | zero =>
    intro st hidx _
    exact ⟨st, rfl, by rw [Nat.add_zero, Nat.mod_eq_of_lt hidx]⟩
  | succ k ih =>
    intro st hidx hlast
    obtain ⟨st1, h1, hcp, hidx1, hlast1⟩ := nextPlayer_step fetched st hidx hlast
    obtain ⟨st', h2, hcp'⟩ := ih st1 hidx1 hlast1
    refine ⟨st', ?_, ?_⟩
    · simp only [nextPlayerN, h1, Option.some_bind]
      exact h2
    · rw [hcp', hcp, Nat.mod_add_mod]
      congr 1
      omega

/-- Claim C7 (counterexample): with two unchanged players, valid starting
index 0 but a remembered name deriving entry 1, the first advance first
retargets the index through the embedded reconcile, so after
`length = 2` advances the index is 1, not the starting 0. -/
theorem advance_cycle_counterexample :
    (mprisFilter fetchedC7x).length = 2 ∧
    stC7x.player_names = mprisFilter fetchedC7x ∧
    stC7x.current_player = 0 ∧
    (nextPlayerN fetchedC7x 2 stC7x).map (fun s => s.current_player) = some 1 ∧
    (1 : Nat) ≠ 0 :=
  ⟨by decide, by decide, rfl, by decide, by decide⟩

/-- Claim C7 (amended): for an unchanged (filtered) player sequence and a
valid starting index, if additionally the remembered name is the derived
name of the entry at the starting index (the invariant `next_player`
itself maintains), then `length` advances return the index to its
starting value. -/
theorem advance_cycles_with_invariant (fetched : List Str) (st : PState)
    (hidx : st.current_player < (mprisFilter fetched).length)
    (hlast : st.last_player_name =
      getName ((mprisFilter fetched).get ⟨st.current_player, hidx⟩)) :
    ∃ st', nextPlayerN fetched (mprisFilter fetched).length st = some st' ∧
      st'.current_player = st.current_player := by
  obtain ⟨st', h, hcp⟩ := nextPlayerN_inv fetched (mprisFilter fetched).length st hidx hlast
  exact ⟨st', h, by rw [hcp, Nat.add_mod_right, Nat.mod_eq_of_lt hidx]⟩

/-- Witness for `advance_cycles_with_invariant` with two players and the
invariant holding at starting index 0. -/
theorem advance_cycles_witness :
    stC7w.current_player < (mprisFilter fetchedC7x).length ∧
    (∃ st', nextPlayerN fetchedC7x (mprisFilter fetchedC7x).length stC7w = some st' ∧
      st'.current_player = stC7w.current_player) :=
  ⟨by decide, advance_cycles_with_invariant fetchedC7x stC7w (by decide) (by decide)⟩
